import Mathlib

/-!
Shallow embedding of `src/curl-http-client.ts` (the `CurlHttpClient` class and its
helper types).  JavaScript strings are modelled as `List Char`; JavaScript objects
used as string-keyed maps are modelled as ordered association lists with
JS-assignment semantics (updating an existing key keeps its position, a new key is
appended).  JavaScript exceptions are modelled with `Except`; the `try`/`catch`
block of `handleResponse` is an explicit `match` on the `Except` result.
-/

set_option maxHeartbeats 1000000
set_option maxRecDepth 4000

namespace Curl

/-- JavaScript strings (sequences of code points) are modelled as lists of characters. -/
abbrev Str := List Char

/-- Helper: decide whether `p` is a prefix of `s` (used to model substring search). -/
def isPrefixL : Str → Str → Bool
  | [], _ => true
  | _ :: _, [] => false
  | a :: as, b :: bs => if a = b then isPrefixL as bs else false

/-- JS `String.prototype.includes`: `containsSeq needle hay` is true iff `needle`
occurs as a contiguous substring of `hay`. -/
def containsSeq (needle : Str) : Str → Bool
  | [] => isPrefixL needle []
  | c :: rest => isPrefixL needle (c :: rest) || containsSeq needle rest

/-- The blank-line boundary `"\r\n\r\n"` used by `stdout.split('\r\n\r\n')`. -/
def sepBlankS : Str := ['\r', '\n', '\r', '\n']

/-- JS `stdout.split('\r\n\r\n')`: splits at each leftmost, non-overlapping
occurrence of the four-character blank-line boundary. -/
def splitBlank : Str → List Str
  | '\r' :: '\n' :: '\r' :: '\n' :: rest => [] :: splitBlank rest
  | c :: rest =>
    match splitBlank rest with
    | [] => [[c]]
    | chunk :: chunks => (c :: chunk) :: chunks
  | [] => [[]]

/-- JS `headerStr.split('\r\n')`: splits at each occurrence of CRLF. -/
def splitCRLF : Str → List Str
  | '\r' :: '\n' :: rest => [] :: splitCRLF rest
  | c :: rest =>
    match splitCRLF rest with
    | [] => [[c]]
    | chunk :: chunks => (c :: chunk) :: chunks
  | [] => [[]]

/-- JS `Array.prototype.join(sep)`. -/
def joinSep (sep : Str) : List Str → Str
  | [] => []
  | [x] => x
  | x :: xs => x ++ sep ++ joinSep sep xs

/-- Whitespace characters recognised by JS `String.prototype.trim` (the ASCII
subset; the exotic Unicode space characters never occur in the claims). -/
def jsWsChar (c : Char) : Bool :=
  c = ' ' || c = '\t' || c = '\n' || c = '\r' || c = '\x0b' || c = '\x0c'

/-- JS `String.prototype.trim`. -/
def trimL (s : Str) : Str :=
  ((s.dropWhile jsWsChar).reverse.dropWhile jsWsChar).reverse

/-- JS property read `m[key]` on an object used as a string-keyed map. -/
def objGet {α : Type} : List (Str × α) → Str → Option α
  | [], _ => none
  | (k, v) :: rest, key => if k = key then some v else objGet rest key

/-- JS property assignment `m[key] = v`: an existing key keeps its position and
gets the new value, a new key is appended at the end. -/
def objSet {α : Type} : List (Str × α) → Str → α → List (Str × α)
  | [], key, v => [(key, v)]
  | (k, w) :: rest, key, v =>
    if k = key then (k, v) :: rest else (k, w) :: objSet rest key v

/-- One line of `parseHeaders`: `line.indexOf(':')`, `substring` both sides of the
first colon, `trim` each part.  Lines without a colon yield `none`. -/
def headerLineEntry (line : Str) : Option (Str × Str) :=
  match line.findIdx? (fun c => decide (c = ':')) with
  | none => none
  | some i => some (trimL (line.take i), trimL (line.drop (i + 1)))

/-- The loop body of `CurlHttpClient.parseHeaders`: lines without a colon are
ignored; `if (headers[key])` is a JS truthiness test, so a stored empty value is
overwritten rather than appended to. -/
def parseHeaderLine (m : List (Str × Str)) (line : Str) : List (Str × Str) :=
  match headerLineEntry line with
  | none => m
  | some (key, value) =>
    match objGet m key with
    | some old =>
      if old ≠ [] then objSet m key (old ++ ", ".data ++ value)
      else objSet m key value
    | none => objSet m key value

/-- `CurlHttpClient.parseHeaders`: split the raw header block on CRLF and fold the
lines into a JS-object header map. -/
def parseHeaders (headerStr : Str) : List (Str × Str) :=
  (splitCRLF headerStr).foldl parseHeaderLine []

/-- One anchored attempt of the regex `HTTP\/\d\.\d (\d{3}) (.*)` at the head of
the string: literal `HTTP/`, digit, `.`, digit, space, three digits (the status
code), space, then `(.*)` greedily captures up to the next `\r` or `\n`
(JS `.` matches neither). -/
def matchStatusAt : Str → Option (Nat × Str)
  | 'H' :: 'T' :: 'T' :: 'P' :: '/' :: d1 :: '.' :: d2 :: ' ' :: a :: b :: c :: ' ' :: rest =>
    if d1.isDigit && d2.isDigit && a.isDigit && b.isDigit && c.isDigit then
      some (100 * (a.toNat - 48) + 10 * (b.toNat - 48) + (c.toNat - 48),
        rest.takeWhile (fun ch => decide (ch ≠ '\r') && decide (ch ≠ '\n')))
    else none
  | _ => none

/-- JS `statusLine.match(/HTTP\/\d\.\d (\d{3}) (.*)/)`: the regex is unanchored,
so matching scans left to right for the first position where the pattern fits. -/
def findStatusMatch : Str → Option (Nat × Str)
  | [] => none
  | c :: rest =>
    match matchStatusAt (c :: rest) with
    | some r => some r
    | none => findStatusMatch rest

/-- The status-line step of `handleResponse`: on a match, status is the parsed
3-digit integer and statusText the second capture (possibly empty; the JS
expression `statusMatch && statusMatch[2] ? statusMatch[2] : ''` yields the
capture in every matched case because the fallback is also `''`); with no match,
status 0 and empty statusText. -/
def parseStatus (line : Str) : Nat × Str :=
  match findStatusMatch line with
  | some (code, reason) => (code, reason)
  | none => (0, [])

/-- JSON values as produced by the host's `JSON.parse`.  Numbers keep their
source lexeme (this avoids committing to a floating-point semantics; every
claim only inspects the lexeme). -/
inductive Js where
  | null
  | bool (b : Bool)
  | num (lexeme : Str)
  | str (s : Str)
  | arr (elems : List Js)
  | obj (fields : List (Str × Js))

/-- Building a JS object from parsed members: assignments in order, duplicate
keys overwrite in place (last value wins, first position kept). -/
def buildJsObj (pairs : List (Str × Js)) : List (Str × Js) :=
  pairs.foldl (fun m kv => objSet m kv.1 kv.2) []

/-- JSON whitespace (space, tab, line feed, carriage return). -/
def jsonWs (c : Char) : Bool :=
  c = ' ' || c = '\t' || c = '\n' || c = '\r'

/-- Drop leading JSON whitespace. -/
def skipWs (s : Str) : Str := s.dropWhile jsonWs

/-- Value of a hexadecimal digit. -/
def hexDigitVal (c : Char) : Option Nat :=
  if '0' ≤ c ∧ c ≤ '9' then some (c.toNat - 48)
  else if 'a' ≤ c ∧ c ≤ 'f' then some (c.toNat - 87)
  else if 'A' ≤ c ∧ c ≤ 'F' then some (c.toNat - 55)
  else none

/-- Single-character JSON string escapes. -/
def escChar : Char → Option Char
  | '"' => some '"'
  | '\\' => some '\\'
  | '/' => some '/'
  | 'b' => some '\x08'
  | 'f' => some '\x0c'
  | 'n' => some '\n'
  | 'r' => some '\r'
  | 't' => some '\t'
  | _ => none

/-- Modelled from the host: the string scanner of `JSON.parse`, applied after the
opening quote.  Raw control characters are rejected, escapes are decoded
(`\uXXXX` via `Char.ofNat`, which collapses unpaired surrogates to `'\x00'`;
no claim exercises them). -/
def parseJsStringBody : Str → Option (Str × Str)
  | [] => none
  | '"' :: rest => some ([], rest)
  | '\\' :: rest =>
    match rest with
    | 'u' :: h1 :: h2 :: h3 :: h4 :: r =>
      match hexDigitVal h1, hexDigitVal h2, hexDigitVal h3, hexDigitVal h4 with
      | some a, some b, some c, some d =>
        (parseJsStringBody r).map
          (fun p => (Char.ofNat (4096 * a + 256 * b + 16 * c + d) :: p.1, p.2))
      | _, _, _, _ => none
    | e :: r =>
      match escChar e with
      | some c => (parseJsStringBody r).map (fun p => (c :: p.1, p.2))
      | none => none
    | [] => none
  | c :: rest =>
    if c.toNat < 32 then none
    else (parseJsStringBody rest).map (fun p => (c :: p.1, p.2))

/-- The integer part of a JSON number: `0` or a nonzero digit followed by digits. -/
def parseIntPart : Str → Option (Str × Str)
  | '0' :: rest => some (['0'], rest)
  | c :: rest =>
    if c.isDigit then some (c :: rest.takeWhile Char.isDigit, rest.dropWhile Char.isDigit)
    else none
  | [] => none

/-- The optional fraction part of a JSON number. -/
def parseFracPart : Str → Option (Str × Str)
  | '.' :: rest =>
    let ds := rest.takeWhile Char.isDigit
    if ds = [] then none else some ('.' :: ds, rest.dropWhile Char.isDigit)
  | s => some ([], s)

/-- The optional exponent part of a JSON number. -/
def parseExpPart (s : Str) : Option (Str × Str) :=
  match s with
  | e :: rest =>
    if e = 'e' ∨ e = 'E' then
      match rest with
      | sgn :: r2 =>
        if sgn = '+' ∨ sgn = '-' then
          let ds := r2.takeWhile Char.isDigit
          if ds = [] then none else some (e :: sgn :: ds, r2.dropWhile Char.isDigit)
        else
          let ds := rest.takeWhile Char.isDigit
          if ds = [] then none else some (e :: ds, rest.dropWhile Char.isDigit)
      | [] => none
    else some ([], s)
  | [] => some ([], s)

/-- JSON number without the optional leading minus sign. -/
def parseJsNumberNoSign (s : Str) : Option (Str × Str) := do
  let (i, r1) ← parseIntPart s
  let (f, r2) ← parseFracPart r1
  let (e, r3) ← parseExpPart r2
  pure (i ++ f ++ e, r3)

/-- A JSON number lexeme (`-?(0|[1-9][0-9]*)(\.[0-9]+)?([eE][+-]?[0-9]+)?`). -/
def parseJsNumber (s : Str) : Option (Str × Str) :=
  match s with
  | '-' :: rest => (parseJsNumberNoSign rest).map (fun p => ('-' :: p.1, p.2))
  | _ => parseJsNumberNoSign s

mutual

/-- Modelled from the host: the value grammar of `JSON.parse`.  The fuel only
bounds nesting; the wrapper `jsParse` supplies enough for any input. -/
def parseJsValue : Nat → Str → Option (Js × Str)
  | 0, _ => none
  | fuel + 1, s =>
    match skipWs s with
    | 'n' :: 'u' :: 'l' :: 'l' :: r => some (.null, r)
    | 't' :: 'r' :: 'u' :: 'e' :: r => some (.bool true, r)
    | 'f' :: 'a' :: 'l' :: 's' :: 'e' :: r => some (.bool false, r)
    | '"' :: r => (parseJsStringBody r).map (fun p => (.str p.1, p.2))
    | '[' :: r =>
      (match skipWs r with
       | ']' :: r2 => some (.arr [], r2)
       | s2 => (parseJsElems fuel s2).map (fun p => (.arr p.1, p.2)))
    | '\x7b' :: r =>
      (match skipWs r with
       | '\x7d' :: r2 => some (.obj [], r2)
       | s2 => (parseJsMembers fuel s2).map (fun p => (.obj (buildJsObj p.1), p.2)))
    | s2 => (parseJsNumber s2).map (fun p => (.num p.1, p.2))

/-- Comma-separated array elements up to the closing bracket. -/
def parseJsElems : Nat → Str → Option (List Js × Str)
  | 0, _ => none
  | fuel + 1, s =>
    match parseJsValue fuel s with
    | none => none
    | some (v, r) =>
      match skipWs r with
      | ',' :: r2 =>
        match parseJsElems fuel r2 with
        | none => none
        | some (vs, r3) => some (v :: vs, r3)
      | ']' :: r2 => some ([v], r2)
      | _ => none

/-- Comma-separated object members up to the closing brace. -/
def parseJsMembers : Nat → Str → Option (List (Str × Js) × Str)
  | 0, _ => none
  | fuel + 1, s =>
    match skipWs s with
    | '"' :: r =>
      (match parseJsStringBody r with
       | none => none
       | some (k, r1) =>
         match skipWs r1 with
         | ':' :: r2 =>
           (match parseJsValue fuel r2 with
            | none => none
            | some (v, r3) =>
              match skipWs r3 with
              | ',' :: r4 =>
                (match parseJsMembers fuel r4 with
                 | none => none
                 | some (ms, r5) => some ((k, v) :: ms, r5))
              | '\x7d' :: r4 => some ([(k, v)], r4)
              | _ => none)
         | _ => none)
    | _ => none

end

/-- Modelled from the host: `JSON.parse` — parse one value, then require only
whitespace to remain.  `2 * length + 2` units of fuel always suffice because
every recursive descent step consumes at least one character. -/
def jsParse (s : Str) : Option Js :=
  match parseJsValue (2 * s.length + 2) s with
  | some (v, rest) => if skipWs rest = [] then some v else none
  | none => none

/-- Decimal rendering of a natural number. -/
def natRepr (n : Nat) : Str := (Nat.repr n).data

/-- Hexadecimal digit character (lowercase). -/
def hexChar (n : Nat) : Char :=
  if n < 10 then Char.ofNat (48 + n) else Char.ofNat (87 + n)

/-- Modelled from the host: the character escaping of `JSON.stringify` for
string values. -/
def escapeJsonChar (c : Char) : Str :=
  if c = '"' then ['\\', '"']
  else if c = '\\' then ['\\', '\\']
  else if c = '\n' then ['\\', 'n']
  else if c = '\r' then ['\\', 'r']
  else if c = '\t' then ['\\', 't']
  else if c = '\x08' then ['\\', 'b']
  else if c = '\x0c' then ['\\', 'f']
  else if c.toNat < 32 then
    ['\\', 'u', '0', '0', hexChar (c.toNat / 16), hexChar (c.toNat % 16)]
  else [c]

/-- Modelled from the host: `JSON.stringify` applied to a string. -/
def jsStringQuote (s : Str) : Str :=
  '"' :: (s.map escapeJsonChar).flatten ++ ['"']

mutual

/-- Modelled from the host: `JSON.stringify` on a JSON value (no spacing). -/
def jsonStringifyJs : Js → Str
  | .null => "null".data
  | .bool true => "true".data
  | .bool false => "false".data
  | .num lexeme => lexeme
  | .str s => jsStringQuote s
  | .arr xs => '[' :: joinSep [','] (jsonStringifyList xs) ++ [']']
  | .obj ms => '\x7b' :: joinSep [','] (jsonStringifyMembers ms) ++ ['\x7d']

/-- Stringify each element of a JSON array. -/
def jsonStringifyList : List Js → List Str
  | [] => []
  | x :: xs => jsonStringifyJs x :: jsonStringifyList xs

/-- Stringify each member of a JSON object. -/
def jsonStringifyMembers : List (Str × Js) → List Str
  | [] => []
  | kv :: ms => (jsStringQuote kv.1 ++ [':'] ++ jsonStringifyJs kv.2) :: jsonStringifyMembers ms

end

/-- Modelled from the host: `JSON.stringify` of a Node `Buffer`, which serializes
via `Buffer.prototype.toJSON` to `\x7b"type":"Buffer","data":[..]\x7d`. -/
def bufferJson (bytes : List Nat) : Str :=
  "\x7b\"type\":\"Buffer\",\"data\":[".data ++ joinSep [','] (bytes.map natRepr) ++ "]\x7d".data

/-- A runtime value stored in a `Record<string, unknown>` request body, split by
the runtime kinds the source code distinguishes: strings
(`typeof value === 'string'`), Node `Buffer`s, `fs.ReadStream`s
(`value instanceof fs.ReadStream`; carrying its `path` and the bytes the stream
yields), and any other JSON-serializable value. -/
inductive FieldValue where
  | str (s : Str)
  | buffer (bytes : List Nat)
  | stream (path : Str) (contents : Str)
  | jsval (v : Js)

/-- The `Config.data` payload: `Record<string, unknown> | string | Buffer | fs.ReadStream`. -/
inductive BodyData where
  | record (fields : List (Str × FieldValue))
  | str (s : Str)
  | buffer (bytes : List Nat)
  | stream (path : Str) (contents : Str)

/-- The `Config` interface (`headers?`, `data?`, `url?`, `method?`); an absent
`headers` is modelled by the empty map. -/
structure ConfigM where
  headers : List (Str × Str)
  data : Option BodyData
  url : Option Str
  method : Option Str

/-- The `data` field of a parsed response: either a JSON value produced by
`JSON.parse` or the raw body text. -/
inductive JsData where
  | json (v : Js)
  | raw (s : Str)

/-- The `CurlHttpClientResponse` shape (`request: \x7b command \x7d` is flattened to
the command string). -/
structure ResponseM where
  data : JsData
  status : Nat
  statusText : Str
  headers : List (Str × Str)
  config : ConfigM
  command : Str

/-- JavaScript exceptions that can be raised inside `handleResponse`'s `try`
block: the `TypeError` from calling `.includes` on `undefined` in `isJson`, a
`SyntaxError` from `JSON.parse`, and the deliberately thrown
`CurlHttpClientError` (carrying message and attached response). -/
inductive JsException where
  | typeError
  | jsonParseError
  | curlHttpClientError (message : Str) (response : ResponseM)

/-- The exact-case key used by the source for content-type lookups. -/
def ctKey : Str := "Content-Type".data

/-- The substring `application/json`. -/
def appJson : Str := "application/json".data

/-- The substring `application/hal+json`. -/
def halJson : Str := "application/hal+json".data

/-- `CurlHttpClient.isJson(contentType)` with JS evaluation order:
`contentType && contentType.includes('application/json') || contentType.includes('application/hal+json')`.
When the lookup produced `undefined`, the first conjunct short-circuits to
`undefined`, the disjunction evaluates its right side, and `.includes` on
`undefined` raises a `TypeError`. -/
def isJsonE : Option Str → Except JsException Bool
  | none => .error .typeError
  | some ct => .ok (containsSeq appJson ct || containsSeq halJson ct)

/-- The message `Request failed with status code $\x7bstatusCode\x7d`. -/
def failMessage (statusCode : Nat) : Str :=
  "Request failed with status code ".data ++ natRepr statusCode

/-- `stdout.split('\r\n\r\n')[0]`: the raw header block. -/
def headerPartOf (s : Str) : Str := (splitBlank s).headD []

/-- `bodyParts.join('\r\n\r\n')`: everything after the first blank-line boundary,
with any further boundaries re-joined. -/
def bodyOf (s : Str) : Str := joinSep sepBlankS (splitBlank s).tail

/-- `headerPart.split('\r\n')[0]`: the status line. -/
def statusLineOf (s : Str) : Str := (splitCRLF (headerPartOf s)).headD []

/-- The `try` block of `handleResponse` (lines 107-129): content classification
followed by the status check; every raised exception is propagated to the
enclosing `catch`. -/
def tryBody (headers : List (Str × Str)) (body : Str) (statusCode : Nat)
    (statusText : Str) (config : ConfigM) (command : Str) :
    Except JsException JsData :=
  match isJsonE (objGet headers ctKey) with
  | .error e => .error e
  | .ok j =>
    match
      (if j && decide (0 < body.length) then
        match jsParse body with
        | some v => Except.ok (JsData.json v)
        | none => Except.error JsException.jsonParseError
      else Except.ok (JsData.raw body)) with
    | .error e => .error e
    | .ok d =>
      if statusCode < 200 || 300 ≤ statusCode then
        .error (.curlHttpClientError (failMessage statusCode)
          { data := d, status := statusCode, statusText := statusText,
            headers := headers, config := config, command := command })
      else .ok d

/-- `CurlHttpClient.handleResponse`, with fuel bounding the `100 Continue`
recursion (each recursive call strictly shrinks the string, so
`length + 1` units suffice — proved below).  The `catch` clause maps every
exception to a normal return whose `data` is the raw body. -/
def handleResponseAux : Nat → Str → ConfigM → Str → Option (Except JsException ResponseM)
  | 0, _, _, _ => none
  | fuel + 1, stdout, config, command =>
    let headers := parseHeaders (headerPartOf stdout)
    let st := parseStatus (statusLineOf stdout)
    if st.1 = 100 then
      handleResponseAux fuel (bodyOf stdout) config command
    else
      some (match tryBody headers (bodyOf stdout) st.1 st.2 config command with
        | .ok d =>
          .ok { data := d, status := st.1, statusText := st.2, headers := headers,
                config := config, command := command }
        | .error _ =>
          .ok { data := JsData.raw (bodyOf stdout), status := st.1, statusText := st.2,
                headers := headers, config := config, command := command })

/-- `CurlHttpClient.handleResponse` at its sufficient fuel. -/
def handleResponse (stdout : Str) (config : ConfigM) (command : Str) :
    Option (Except JsException ResponseM) :=
  handleResponseAux (stdout.length + 1) stdout config command

/-- ASCII lowercasing (the extension strings compared against are ASCII). -/
def asciiLower (c : Char) : Char :=
  if 'A' ≤ c ∧ c ≤ 'Z' then Char.ofNat (c.toNat + 32) else c

/-- JS `String.prototype.toLowerCase` on the ASCII range. -/
def lowerStr (s : Str) : Str := s.map asciiLower

/-- Modelled from the host: Node `path.basename` — the final path component
(trailing separators stripped). -/
def basenameL (p : Str) : Str :=
  ((p.reverse.dropWhile (fun c => decide (c = '/'))).takeWhile (fun c => decide (c ≠ '/'))).reverse

/-- Modelled from the host: Node `path.extname` — from the last `.` of the
basename to the end; empty when there is no dot or the only dot leads. -/
def extnameL (p : Str) : Str :=
  let b := basenameL p
  let afterRev := b.reverse.takeWhile (fun c => decide (c ≠ '.'))
  if afterRev.length = b.length then []
  else if afterRev.length + 1 = b.length then []
  else '.' :: afterRev.reverse

/-- `CurlHttpClient.getContentType`: the fixed extension-to-MIME table with
`application/octet-stream` as the default. -/
def getContentType (filePath : Str) : Str :=
  let ext := lowerStr (extnameL filePath)
  if ext = ".png".data then "image/png".data
  else if ext = ".jpg".data then "image/jpeg".data
  else if ext = ".gif".data then "image/gif".data
  else if ext = ".pdf".data then "application/pdf".data
  else if ext = ".doc".data then "application/msword".data
  else if ext = ".docx".data then
    "application/vnd.openxmlformats-officedocument.wordprocessingml.document".data
  else if ext = ".xls".data then "application/vnd.ms-excel".data
  else if ext = ".xlsx".data then
    "application/vnd.openxmlformats-officedocument.spreadsheetml.sheet".data
  else if ext = ".ppt".data then "application/vnd.ms-powerpoint".data
  else if ext = ".pptx".data then
    "application/vnd.openxmlformats-officedocument.presentationml.presentation".data
  else if ext = ".zip".data then "application/zip".data
  else if ext = ".txt".data then "text/plain".data
  else if ext = ".csv".data then "text/csv".data
  else if ext = ".json".data then "application/json".data
  else if ext = ".xml".data then "application/xml".data
  else "application/octet-stream".data

/-- CRLF. -/
def crlfS : Str := ['\r', '\n']

/-- The scalar-part layout written by the `else` branch of the streaming loop:
boundary line, `Content-Disposition` header, blank line, stringified value, CRLF. -/
def scalarPart (boundary key text : Str) : Str :=
  "--".data ++ boundary ++ crlfS ++
  "Content-Disposition: form-data; name=\"".data ++ key ++ "\"".data ++ crlfS ++ crlfS ++
  text ++ crlfS

/-- The bytes one field contributes to the multipart stream
(`streamFile` for `fs.ReadStream` values, the `else` branch otherwise; a
non-string scalar is `JSON.stringify`-ed). -/
def encodePart (boundary key : Str) : FieldValue → Str
  | .stream path contents =>
    "--".data ++ boundary ++ crlfS ++
    "Content-Disposition: form-data; name=\"".data ++ key ++ "\"; filename=\"".data ++
      basenameL path ++ "\"".data ++ crlfS ++
    "Content-Type: ".data ++ getContentType path ++ crlfS ++ crlfS ++
    contents ++ crlfS
  | .str s => scalarPart boundary key s
  | .buffer bytes => scalarPart boundary key (bufferJson bytes)
  | .jsval v => scalarPart boundary key (jsonStringifyJs v)

/-- Concatenation of a list of strings. -/
def concatAll : List Str → Str
  | [] => []
  | x :: xs => x ++ concatAll xs

/-- The full byte stream the streaming loop pipes into the transport process's
input: each field in mapping order, then the closing boundary line. -/
def encodeMultipart (boundary : Str) (fields : List (Str × FieldValue)) : Str :=
  concatAll (fields.map (fun kv => encodePart boundary kv.1 kv.2)) ++
  "--".data ++ boundary ++ "--".data ++ crlfS

/-- `CurlHttpClient.prepareHeaders`: each header becomes a `-H` flag followed by
`key: value`. -/
def prepareHeaders (headers : List (Str × Str)) : List Str :=
  headers.foldr (fun kv acc => "-H".data :: (kv.1 ++ ": ".data ++ kv.2) :: acc) []

/-- Whether a string contains no `\r` or `\n` (JS `.` matches neither). -/
def noNewlines (s : Str) : Bool :=
  s.all (fun c => decide (c ≠ '\r') && decide (c ≠ '\n'))

/-- The quote-stripping map of `executeCurlWithStream`
(`header.replace(/^"(.*)"$/, '$1')`, `-H` entries left alone): strips one pair
of surrounding double quotes when the whole string is quoted and the middle has
no newline characters; otherwise the string is unchanged. -/
def stripQuotes (header : Str) : Str :=
  if header = "-H".data then header
  else
    match header with
    | '"' :: rest =>
      (match rest.reverse with
       | '"' :: midRev => if noNewlines midRev.reverse then midRev.reverse else header
       | _ => header)
    | _ => header

/-- The appended header `Content-Type: multipart/form-data; boundary=<token>`. -/
def ctMultipartHeader (boundary : Str) : Str :=
  "Content-Type: multipart/form-data; boundary=".data ++ boundary

/-- Modelled from the host: `Object.entries` on the four runtime shapes of
`config.data`.  A string yields indexed one-character entries, a `Buffer` yields
indexed byte entries; an `fs.ReadStream`'s own enumerable properties are
host-defined and modelled as none (no claim exercises this case). -/
def entriesOf : BodyData → List (Str × FieldValue)
  | .record fields => fields
  | .str s => s.enum.map (fun p => (natRepr p.1, FieldValue.str [p.2]))
  | .buffer bytes => bytes.enum.map (fun p => (natRepr p.1, FieldValue.jsval (Js.num (natRepr p.2))))
  | .stream _ _ => []

/-- `config.data || \x7b\x7d`: `undefined` and the (falsy) empty string are
replaced by the empty object. -/
def dataOrEmpty : Option BodyData → BodyData
  | none => .record []
  | some (.str []) => .record []
  | some d => d

/-- Modelled from the host: `JSON.stringify` of one record field value.  A
`ReadStream`'s serialization is host-defined and modelled as an empty object
(no claim exercises it). -/
def stringifyFieldEntry : FieldValue → Str
  | .str s => jsStringQuote s
  | .buffer bytes => bufferJson bytes
  | .stream _ _ => "\x7b\x7d".data
  | .jsval v => jsonStringifyJs v

/-- Modelled from the host: `JSON.stringify` of a record body. -/
def jsonStringifyRecord (fields : List (Str × FieldValue)) : Str :=
  '\x7b' :: joinSep [','] (fields.map (fun kv => jsStringQuote kv.1 ++ [':'] ++ stringifyFieldEntry kv.2)) ++ ['\x7d']

/-- The `-d` payload of the buffered branch of `sendData`:
`typeof config.data === 'string' ? config.data : JSON.stringify(config.data)`
(`JSON.stringify(undefined)` is the `undefined` value, which the argument vector
coerces to the text `undefined`; host-level, exercised by no claim). -/
def bodyPayload : Option BodyData → Str
  | some (.str s) => s
  | some (.record fields) => jsonStringifyRecord fields
  | some (.buffer bytes) => bufferJson bytes
  | some (.stream _ _) => "\x7b\x7d".data
  | none => "undefined".data

/-- The observable plan of `executeCurlWithStream`: the final header flag list
(after appending the multipart content-type and quote-stripping) and the bytes
piped into the transport process's input. -/
structure StreamInvocation where
  headers : List Str
  body : Str

/-- How `sendData` dispatches a POST/PUT request: the buffered `-d` invocation
or the streaming multipart invocation. -/
inductive SendPlan where
  | buffered (payload : Str)
  | streamed (inv : StreamInvocation)

/-- Whether a plan is the streaming multipart one. -/
def SendPlan.isStreamed : SendPlan → Bool
  | .buffered _ => false
  | .streamed _ => true

/-- `CurlHttpClient.executeCurlWithStream` (its observable plan): push the
multipart content-type header, strip quotes from every header, and encode the
body fields into the input stream. -/
def executeCurlWithStreamPlan (headers : List Str) (data : BodyData) (boundary : Str) :
    StreamInvocation :=
  { headers := (headers ++ ["-H".data, ctMultipartHeader boundary]).map stripQuotes,
    body := encodeMultipart boundary (entriesOf data) }

/-- `CurlHttpClient.sendData` (its dispatch): when
`config.headers?.['Content-Type'] || ''` contains `application/json`, take the
buffered `-d` path; otherwise stream multipart via `executeCurlWithStream` with
`config.data || \x7b\x7d`.  `boundary` stands for the randomly generated token. -/
def sendDataPlan (config : ConfigM) (boundary : Str) : SendPlan :=
  let headers := prepareHeaders config.headers
  let contentType := (objGet config.headers ctKey).getD []
  if containsSeq appJson contentType then
    .buffered (bodyPayload config.data)
  else
    .streamed (executeCurlWithStreamPlan headers (dataOrEmpty config.data) boundary)

/-- The value a single header line contributes to a given key: its trimmed
value when the line has a colon and its trimmed name equals `key`. -/
def lineOcc (key : Str) (line : Str) : Option Str :=
  match headerLineEntry line with
  | some kv => if kv.1 = key then some kv.2 else none
  | none => none

/-- Spec-side definition (follows the claim's words, for comparison with
`parseHeaders`): the trimmed values of every header line of the block whose
trimmed name equals `key`, in order of appearance. -/
def headerOccurrences (block : Str) (key : Str) : List Str :=
  (splitCRLF block).filterMap (lineOcc key)

/-- Spec-side definition (follows the claim's words): the `", "`-joined
concatenation of all occurrences. -/
def specJoinedValue (occ : List Str) : Str :=
  List.intercalate ", ".data occ

/-- The value `parseHeaders` actually accumulates for a key: occurrences are
joined with `", "`, except that an accumulated empty value is replaced (the JS
truthiness test `if (headers[key])` treats a stored empty string as absent). -/
def joinedHeaderValue (occ : List Str) : Str :=
  occ.foldl (fun acc v => if acc = [] then v else acc ++ ", ".data ++ v) []

/-- Whether a string contains the blank-line boundary. -/
def hasSep (s : Str) : Bool := containsSeq sepBlankS s

/-- Whether a string ends with CRLF. -/
def endsCRLF (s : Str) : Bool := isPrefixL ['\n', '\r'] s.reverse

/-- A provisional `100 Continue` header block: its first line parses to status
100, it contains no blank-line boundary, and it does not end with CRLF (so that
appending the boundary creates exactly one split point at its end). -/
def is100Block (b : Str) : Bool :=
  !hasSep b && !endsCRLF b && decide ((parseStatus ((splitCRLF b).headD [])).1 = 100)

/-- A chain of header blocks, each followed by the blank-line boundary, ahead of
the final response text. -/
def chainBlocks (blocks : List Str) (final : Str) : Str :=
  blocks.foldr (fun b acc => b ++ sepBlankS ++ acc) final

/-- One step of the value accumulation `parseHeaders` performs for a fixed key,
acting on the current lookup result. -/
def stepJoin (acc : Option Str) (v : Str) : Option Str :=
  some (match acc with
    | some old => if old ≠ [] then old ++ ", ".data ++ v else v
    | none => v)

/-- An empty configuration (no headers, no data). -/
def cfg0 : ConfigM := { headers := [], data := none, url := none, method := none }

/-- A configuration with no headers whose body is a field mapping containing one
file-stream field. -/
def cfgStream : ConfigM :=
  { headers := [],
    data := some (.record [("file1".data, FieldValue.stream "f.txt".data "hi".data)]),
    url := none, method := none }

/-- A plain-text 404 response blob (scenario D of the spec, with a content type). -/
def blob404 : Str :=
  "HTTP/1.1 404 Not Found\r\nContent-Type: text/plain\r\n\r\nnot found".data

/-- A 404 response blob carrying syntactically valid JSON. -/
def blobJson404 : Str :=
  "HTTP/1.1 404 Bad\r\nContent-Type: application/json\r\n\r\n\x7b\"a\":1\x7d".data

/-- A 200 response blob carrying syntactically valid JSON, header name spelled
exactly `Content-Type`. -/
def blobJsonOk : Str :=
  "HTTP/1.1 200 OK\r\nContent-Type: application/json\r\n\r\n\x7b\"a\":1\x7d".data

/-- The same blob as `blobJsonOk` except for the letter-casing of the
`Content-Type` header name. -/
def blobLowerCT : Str :=
  "HTTP/1.1 200 OK\r\ncontent-type: application/json\r\n\r\n\x7b\"a\":1\x7d".data

/-- The JSON body text of the sample blobs. -/
def jsonBodyLit : Str := "\x7b\"a\":1\x7d".data

/-- The JSON value `JSON.parse` yields for `jsonBodyLit`. -/
def jsonValLit : Js := Js.obj [("a".data, Js.num "1".data)]

end Curl

namespace Curl

theorem splitBlank_sep (rest : Str) :
    splitBlank (sepBlankS ++ rest) = [] :: splitBlank rest := by
  simp [sepBlankS, splitBlank]

theorem splitBlank_not_sep (c : Char) (rest : Str)
    (h : isPrefixL sepBlankS (c :: rest) = false) :
    splitBlank (c :: rest) =
      (match splitBlank rest with
       | [] => [[c]]
       | chunk :: chunks => (c :: chunk) :: chunks) := by
  rw [splitBlank.eq_def]
  split
  · rename_i heq
    rw [heq] at h
    simp [isPrefixL, sepBlankS] at h
  · rename_i c' rest' heq
    injection heq with h1 h2
    subst h1
    subst h2
    rfl
  · rename_i heq
    cases heq

theorem splitBlank_ne_nil (s : Str) : splitBlank s ≠ [] := by
  rw [splitBlank.eq_def]
  split
  · simp
  · split <;> simp
  · simp

theorem isPrefixL_exists_append (p : Str) :
    ∀ s : Str, isPrefixL p s = true → ∃ t, s = p ++ t := by
  induction p with
  | nil => intro s _; exact ⟨s, rfl⟩
  | cons a as ih =>
    intro s h
    cases s with
    | nil => simp [isPrefixL] at h
    | cons b bs =>
      rw [isPrefixL] at h
      split at h
      · rename_i hab
        obtain ⟨t, ht⟩ := ih bs h
        exact ⟨t, by rw [hab, ht]; rfl⟩
      · cases h

theorem joinSep_cons_cons (sep x y : Str) (xs : List Str) :
    joinSep sep (x :: y :: xs) = x ++ sep ++ joinSep sep (y :: xs) := by
  rw [joinSep]
  simp

theorem joinSep_splitBlank_bounded :
    ∀ n (s : Str), s.length ≤ n → joinSep sepBlankS (splitBlank s) = s := by
  intro n
  induction n with
  | zero =>
    intro s h
    have hnil : s = [] := by
      cases s with
      | nil => rfl
      | cons a b => simp at h
    subst hnil
    simp [splitBlank, joinSep]
  | succ n ih =>
    intro s hs
    cases s with
    | nil => simp [splitBlank, joinSep]
    | cons c rest =>
      by_cases hp : isPrefixL sepBlankS (c :: rest) = true
      · obtain ⟨t, ht⟩ := isPrefixL_exists_append _ _ hp
        rw [ht, splitBlank_sep]
        cases hsp : splitBlank t with
        | nil => exact absurd hsp (splitBlank_ne_nil t)
        | cons h0 tl =>
          rw [joinSep_cons_cons]
          have hlen : (c :: rest).length = sepBlankS.length + t.length := by
            rw [ht, List.length_append]
          have h4 : sepBlankS.length = 4 := rfl
          have htle : t.length ≤ n := by
            simp at hlen hs
            omega
          have hj := ih t htle
          rw [hsp] at hj
          rw [hj]
          rfl
      · rw [splitBlank_not_sep c rest (by simpa using hp)]
        have hrest := ih rest (by simp at hs; omega)
        cases hsp : splitBlank rest with
        | nil => exact absurd hsp (splitBlank_ne_nil rest)
        | cons h0 tl =>
          rw [hsp] at hrest
          cases tl with
          | nil =>
            simp only [joinSep] at hrest ⊢
            rw [hrest]
          | cons y tl' =>
            rw [joinSep_cons_cons] at hrest ⊢
            simp only [List.cons_append, List.append_assoc] at hrest ⊢
            rw [hrest]

theorem joinSep_splitBlank (s : Str) : joinSep sepBlankS (splitBlank s) = s :=
  joinSep_splitBlank_bounded s.length s le_rfl

theorem bodyOf_length_lt (s : Str) (hs : s ≠ []) : (bodyOf s).length < s.length := by
  cases hsp : splitBlank s with
  | nil => exact absurd hsp (splitBlank_ne_nil s)
  | cons h0 tl =>
    have hjoin := joinSep_splitBlank s
    rw [hsp] at hjoin
    unfold bodyOf
    rw [hsp]
    cases tl with
    | nil =>
      simp only [List.tail_cons, joinSep]
      cases s with
      | nil => exact absurd rfl hs
      | cons a b => simp
    | cons y tl' =>
      rw [joinSep_cons_cons] at hjoin
      have hlen := congrArg List.length hjoin
      simp only [List.length_append] at hlen
      have h4 : sepBlankS.length = 4 := rfl
      simp only [List.tail_cons]
      omega

theorem status100_ne_nil (s : Str)
    (h : (parseStatus (statusLineOf s)).1 = 100) : s ≠ [] := by
  intro heq
  subst heq
  exact absurd h (by decide)

end Curl

namespace Curl

theorem hra_mono :
    ∀ (f1 : Nat) (s : Str) (config : ConfigM) (command : Str) (r : Except JsException ResponseM),
      handleResponseAux f1 s config command = some r →
      ∀ f2, f1 ≤ f2 → handleResponseAux f2 s config command = some r := by
  intro f1
  induction f1 with
  | zero =>
    intro s config command r h
    simp [handleResponseAux] at h
  | succ f ih =>
    intro s config command r h f2 hle
    cases f2 with
    | zero => omega
    | succ f2' =>
      rw [handleResponseAux] at h ⊢
      by_cases hc : (parseStatus (statusLineOf s)).1 = 100
      · simp only [hc, if_true] at h ⊢
        exact ih _ _ _ _ h f2' (by omega)
      · simp only [hc, if_false] at h ⊢
        exact h

theorem hra_isSome_bounded :
    ∀ n (s : Str) (config : ConfigM) (command : Str), s.length ≤ n →
      (handleResponseAux (s.length + 1) s config command).isSome := by
  intro n
  induction n with
  | zero =>
    intro s config command h
    have hnil : s = [] := by
      cases s with
      | nil => rfl
      | cons a b => simp at h
    subst hnil
    have h0 : ¬ (parseStatus (statusLineOf ([] : Str))).1 = 100 := by decide
    rw [handleResponseAux]
    simp only [h0, if_false]
    rfl
  | succ n ih =>
    intro s config command hs
    rw [handleResponseAux]
    by_cases hc : (parseStatus (statusLineOf s)).1 = 100
    · simp only [hc, if_true]
      have hne := status100_ne_nil s hc
      have hlt := bodyOf_length_lt s hne
      have h1 := ih (bodyOf s) config command (by omega)
      obtain ⟨r, hr⟩ := Option.isSome_iff_exists.mp h1
      rw [hra_mono _ _ _ _ _ hr s.length (by omega)]
      rfl
    · simp only [hc, if_false]
      rfl

theorem hra_isSome (s : Str) (config : ConfigM) (command : Str) :
    (handleResponseAux (s.length + 1) s config command).isSome :=
  hra_isSome_bounded s.length s config command le_rfl

theorem hra_stable (s : Str) (config : ConfigM) (command : Str) (f : Nat)
    (hf : s.length + 1 ≤ f) :
    handleResponseAux f s config command = handleResponseAux (s.length + 1) s config command := by
  obtain ⟨r, hr⟩ := Option.isSome_iff_exists.mp (hra_isSome s config command)
  rw [hr, hra_mono _ _ _ _ _ hr f hf]

theorem handleResponse_ne100 (s : Str) (config : ConfigM) (command : Str)
    (h : ¬ (parseStatus (statusLineOf s)).1 = 100) :
    handleResponse s config command = some (.ok
      { data :=
          (match tryBody (parseHeaders (headerPartOf s)) (bodyOf s)
              (parseStatus (statusLineOf s)).1 (parseStatus (statusLineOf s)).2 config command with
           | .ok d => d
           | .error _ => JsData.raw (bodyOf s)),
        status := (parseStatus (statusLineOf s)).1,
        statusText := (parseStatus (statusLineOf s)).2,
        headers := parseHeaders (headerPartOf s),
        config := config, command := command }) := by
  unfold handleResponse
  rw [handleResponseAux]
  simp only [h, if_false]
  cases htb : tryBody (parseHeaders (headerPartOf s)) (bodyOf s)
      (parseStatus (statusLineOf s)).1 (parseStatus (statusLineOf s)).2 config command <;>
    simp [htb]

end Curl

namespace Curl

theorem isPrefixL_append_right (p : Str) :
    ∀ (b x : Str), p.length ≤ b.length → isPrefixL p (b ++ x) = isPrefixL p b := by
  induction p with
  | nil => intro b x _; rfl
  | cons a as ih =>
    intro b x hlen
    cases b with
    | nil => simp at hlen
    | cons c bs =>
      simp only [List.cons_append, isPrefixL]
      by_cases hac : a = c
      · simp only [hac, if_true]
        exact ih bs x (by simp at hlen; omega)
      · simp only [hac, if_false]

theorem hasSep_cons (c : Char) (rest : Str) :
    hasSep (c :: rest) = (isPrefixL sepBlankS (c :: rest) || hasSep rest) := rfl

theorem guard_append (b x : Str) (hne : b ≠ []) (hsep : hasSep b = false)
    (hend : endsCRLF b = false) :
    isPrefixL sepBlankS (b ++ sepBlankS ++ x) = false := by
  match b with
  | [] => exact absurd rfl hne
  | [c1] =>
    simp [isPrefixL, sepBlankS]
  | [c1, c2] =>
    by_cases h1 : c1 = '\r' ∧ c2 = '\n'
    · obtain ⟨ha, hb⟩ := h1
      subst ha
      subst hb
      exact absurd hend (by decide)
    · simp only [List.cons_append, List.nil_append, sepBlankS, isPrefixL]
      simp only [not_and] at h1
      by_cases ha : c1 = '\r'
      · have hb : ('\n' : Char) ≠ c2 := Ne.symm (h1 ha)
        subst ha
        simp [hb]
      · have hb : ('\r' : Char) ≠ c1 := Ne.symm ha
        simp [hb]
  | [c1, c2, c3] =>
    simp [isPrefixL, sepBlankS]
  | c1 :: c2 :: c3 :: c4 :: b' =>
    rw [List.append_assoc,
      isPrefixL_append_right sepBlankS (c1 :: c2 :: c3 :: c4 :: b') (sepBlankS ++ x)
        (by simp [sepBlankS])]
    rw [hasSep_cons] at hsep
    simp only [Bool.or_eq_false_iff] at hsep
    exact hsep.1

end Curl

namespace Curl

theorem endsCRLF_tail (c : Char) (b : Str) (h : endsCRLF (c :: b) = false) :
    endsCRLF b = false := by
  match b with
  | [] => rfl
  | [c2] => simp [endsCRLF, isPrefixL]
  | c2 :: c3 :: b3 =>
    unfold endsCRLF at h ⊢
    rw [show (c :: c2 :: c3 :: b3).reverse = (c2 :: c3 :: b3).reverse ++ [c] from by simp] at h
    rw [isPrefixL_append_right ['\n', '\r'] (c2 :: c3 :: b3).reverse [c] (by simp)] at h
    exact h

theorem hasSep_tail (c : Char) (b : Str) (h : hasSep (c :: b) = false) :
    hasSep b = false := by
  rw [hasSep_cons] at h
  simp only [Bool.or_eq_false_iff] at h
  exact h.2

theorem splitBlank_append (b : Str) :
    ∀ x : Str, hasSep b = false → endsCRLF b = false →
      splitBlank (b ++ sepBlankS ++ x) = b :: splitBlank x := by
  induction b with
  | nil =>
    intro x _ _
    simp only [List.nil_append]
    exact splitBlank_sep x
  | cons c b' ih =>
    intro x hsep hend
    have hg := guard_append (c :: b') x (by simp) hsep hend
    have hassoc : (c :: b') ++ sepBlankS ++ x = c :: (b' ++ sepBlankS ++ x) := by simp
    rw [hassoc] at hg ⊢
    rw [splitBlank_not_sep c (b' ++ sepBlankS ++ x) hg]
    have ihx := ih x (hasSep_tail c b' hsep) (endsCRLF_tail c b' hend)
    rw [ihx]

theorem is100Block_parts (b : Str) (hb : is100Block b = true) :
    hasSep b = false ∧ endsCRLF b = false ∧ (parseStatus ((splitCRLF b).headD [])).1 = 100 := by
  unfold is100Block at hb
  simp only [Bool.and_eq_true, Bool.not_eq_true', decide_eq_true_eq] at hb
  exact ⟨hb.1.1, hb.1.2, hb.2⟩

theorem handleResponse_continue_step (b x : Str) (config : ConfigM) (command : Str)
    (hb : is100Block b = true) :
    handleResponse (b ++ sepBlankS ++ x) config command = handleResponse x config command := by
  obtain ⟨hsep, hend, h100⟩ := is100Block_parts b hb
  have hsplit : splitBlank (b ++ sepBlankS ++ x) = b :: splitBlank x :=
    splitBlank_append b x hsep hend
  have hhead : headerPartOf (b ++ sepBlankS ++ x) = b := by
    unfold headerPartOf
    rw [hsplit]
    rfl
  have hstat : (parseStatus (statusLineOf (b ++ sepBlankS ++ x))).1 = 100 := by
    unfold statusLineOf
    rw [hhead]
    exact h100
  have hbody : bodyOf (b ++ sepBlankS ++ x) = x := by
    unfold bodyOf
    rw [hsplit]
    exact joinSep_splitBlank x
  unfold handleResponse
  rw [handleResponseAux]
  simp only [hstat, if_true, hbody]
  have hlen : x.length + 1 ≤ (b ++ sepBlankS ++ x).length := by
    simp [sepBlankS]
    omega
  exact hra_stable x config command _ hlen

theorem handleResponse_chain (blocks : List Str) (final : Str) (config : ConfigM)
    (command : Str) (hb : ∀ b ∈ blocks, is100Block b = true) :
    handleResponse (chainBlocks blocks final) config command =
      handleResponse final config command := by
  induction blocks with
  | nil => rfl
  | cons b bs ih =>
    have hstep := handleResponse_continue_step b (chainBlocks bs final) config command
      (hb b (List.mem_cons_self b bs))
    unfold chainBlocks at hstep ⊢
    simp only [List.foldr_cons]
    rw [hstep]
    exact ih (fun b' hb' => hb b' (List.mem_cons_of_mem b hb'))

end Curl

namespace Curl

theorem objGet_objSet_self {α : Type} (m : List (Str × α)) (k : Str) (v : α) :
    objGet (objSet m k v) k = some v := by
  induction m with
  | nil => simp [objSet, objGet]
  | cons kv rest ih =>
    obtain ⟨k', w⟩ := kv
    by_cases hk : k' = k
    · simp [objSet, objGet, hk]
    · simp only [objSet]
      rw [if_neg hk]
      simp only [objGet]
      rw [if_neg hk]
      exact ih

theorem objGet_objSet_ne {α : Type} (m : List (Str × α)) (k key : Str) (v : α)
    (h : k ≠ key) : objGet (objSet m k v) key = objGet m key := by
  induction m with
  | nil =>
    simp only [objSet, objGet]
    rw [if_neg h]
  | cons kv rest ih =>
    obtain ⟨k', w⟩ := kv
    by_cases hk : k' = k
    · have hk2 : k' ≠ key := fun he => h (hk ▸ he)
      simp only [objSet]
      rw [if_pos hk]
      simp only [objGet]
      rw [if_neg hk2, if_neg hk2]
    · simp only [objSet]
      rw [if_neg hk]
      simp only [objGet]
      by_cases hk2 : k' = key
      · rw [if_pos hk2, if_pos hk2]
      · rw [if_neg hk2, if_neg hk2]
        exact ih

theorem mem_keys_objSet {α : Type} (m : List (Str × α)) (k : Str) (v : α) (x : Str)
    (h : x ∈ (objSet m k v).map Prod.fst) : x ∈ m.map Prod.fst ∨ x = k := by
  induction m with
  | nil =>
    simp [objSet] at h
    exact Or.inr h
  | cons kv rest ih =>
    obtain ⟨k', w⟩ := kv
    by_cases hk : k' = k
    · simp only [objSet] at h
      rw [if_pos hk] at h
      simp only [List.map_cons, List.mem_cons] at h
      refine Or.inl ?_
      simp only [List.map_cons, List.mem_cons]
      exact h
    · simp only [objSet] at h
      rw [if_neg hk] at h
      simp only [List.map_cons, List.mem_cons] at h
      rcases h with h | h
      · refine Or.inl ?_
        simp only [List.map_cons, List.mem_cons]
        exact Or.inl h
      · rcases ih h with h2 | h2
        · exact Or.inl (List.mem_cons_of_mem _ h2)
        · exact Or.inr h2

theorem nodup_keys_objSet {α : Type} (m : List (Str × α)) (k : Str) (v : α)
    (h : (m.map Prod.fst).Nodup) : ((objSet m k v).map Prod.fst).Nodup := by
  induction m with
  | nil => simp [objSet]
  | cons kv rest ih =>
    obtain ⟨k', w⟩ := kv
    simp only [List.map_cons, List.nodup_cons] at h
    obtain ⟨hnotin, hnd⟩ := h
    by_cases hk : k' = k
    · simp only [objSet]
      rw [if_pos hk]
      simp only [List.map_cons, List.nodup_cons]
      exact ⟨hnotin, hnd⟩
    · simp only [objSet]
      rw [if_neg hk]
      simp only [List.map_cons, List.nodup_cons]
      refine ⟨?_, ih hnd⟩
      intro hmem
      rcases mem_keys_objSet rest k v k' hmem with h2 | h2
      · exact hnotin h2
      · exact hk h2

theorem parseHeaderLine_none (m : List (Str × Str)) (line key : Str)
    (hl : lineOcc key line = none) :
    objGet (parseHeaderLine m line) key = objGet m key := by
  unfold lineOcc at hl
  cases hent : headerLineEntry line with
  | none =>
    unfold parseHeaderLine
    rw [hent]
  | some kv =>
    obtain ⟨k1, v1⟩ := kv
    rw [hent] at hl
    replace hl : (if k1 = key then some v1 else none) = none := hl
    by_cases hk : k1 = key
    · rw [if_pos hk] at hl
      cases hl
    · unfold parseHeaderLine
      rw [hent]
      show objGet (match objGet m k1 with
        | some old => if old ≠ [] then objSet m k1 (old ++ ", ".data ++ v1)
            else objSet m k1 v1
        | none => objSet m k1 v1) key = objGet m key
      cases hget : objGet m k1 with
      | none => exact objGet_objSet_ne m k1 key v1 hk
      | some old =>
        show objGet (if old ≠ [] then objSet m k1 (old ++ ", ".data ++ v1)
            else objSet m k1 v1) key = objGet m key
        by_cases hold : old = []
        · have hcond : ¬ (old ≠ []) := by simp [hold]
          rw [if_neg hcond]
          exact objGet_objSet_ne m k1 key v1 hk
        · rw [if_pos hold]
          exact objGet_objSet_ne m k1 key _ hk

theorem parseHeaderLine_some (m : List (Str × Str)) (line key v : Str)
    (hl : lineOcc key line = some v) :
    objGet (parseHeaderLine m line) key = stepJoin (objGet m key) v := by
  unfold lineOcc at hl
  cases hent : headerLineEntry line with
  | none =>
    rw [hent] at hl
    cases hl
  | some kv =>
    obtain ⟨k1, v1⟩ := kv
    rw [hent] at hl
    replace hl : (if k1 = key then some v1 else none) = some v := hl
    by_cases hk : k1 = key
    · rw [if_pos hk] at hl
      injection hl with hv
      subst hk
      subst hv
      unfold parseHeaderLine
      rw [hent]
      show objGet (match objGet m k1 with
        | some old => if old ≠ [] then objSet m k1 (old ++ ", ".data ++ v1)
            else objSet m k1 v1
        | none => objSet m k1 v1) k1 = stepJoin (objGet m k1) v1
      cases hget : objGet m k1 with
      | none =>
        show objGet (objSet m k1 v1) k1 = stepJoin none v1
        rw [objGet_objSet_self]
        rfl
      | some old =>
        show objGet (if old ≠ [] then objSet m k1 (old ++ ", ".data ++ v1)
            else objSet m k1 v1) k1 = stepJoin (some old) v1
        by_cases hold : old = []
        · have hcond : ¬ (old ≠ []) := by simp [hold]
          rw [if_neg hcond, objGet_objSet_self]
          simp [stepJoin, hold]
        · rw [if_pos hold, objGet_objSet_self]
          simp [stepJoin, hold]
    · rw [if_neg hk] at hl
      cases hl

theorem objGet_foldl_parseHeaderLine (lines : List Str) :
    ∀ (m : List (Str × Str)) (key : Str),
      objGet (lines.foldl parseHeaderLine m) key =
        (lines.filterMap (lineOcc key)).foldl stepJoin (objGet m key) := by
  induction lines with
  | nil => intro m key; rfl
  | cons line rest ih =>
    intro m key
    simp only [List.foldl_cons, List.filterMap_cons]
    cases hl : lineOcc key line with
    | none =>
      rw [ih, parseHeaderLine_none m line key hl]
    | some v =>
      simp only [List.foldl_cons]
      rw [ih, parseHeaderLine_some m line key v hl]

theorem foldl_stepJoin_some (occ : List Str) :
    ∀ w, occ.foldl stepJoin (some w) =
      some (occ.foldl (fun acc v => if acc = [] then v else acc ++ ", ".data ++ v) w) := by
  induction occ with
  | nil => intro w; rfl
  | cons v occ ih =>
    intro w
    simp only [List.foldl_cons]
    have hs : stepJoin (some w) v = some (if w = [] then v else w ++ ", ".data ++ v) := by
      by_cases hw : w = []
      · simp [stepJoin, hw]
      · simp [stepJoin, hw]
    rw [hs, ih]

theorem foldl_stepJoin_none (occ : List Str) :
    occ.foldl stepJoin none =
      (if occ = [] then none else some (joinedHeaderValue occ)) := by
  cases occ with
  | nil => rfl
  | cons v occ' =>
    rw [if_neg (List.cons_ne_nil v occ')]
    simp only [List.foldl_cons]
    have h1 : stepJoin none v = some v := rfl
    rw [h1, foldl_stepJoin_some]
    unfold joinedHeaderValue
    simp only [List.foldl_cons]
    simp

theorem nodup_keys_parseHeaderLine (m : List (Str × Str)) (line : Str)
    (h : (m.map Prod.fst).Nodup) : ((parseHeaderLine m line).map Prod.fst).Nodup := by
  unfold parseHeaderLine
  cases headerLineEntry line with
  | none => exact h
  | some kv =>
    obtain ⟨k1, v1⟩ := kv
    show ((match objGet m k1 with
      | some old => if old ≠ [] then objSet m k1 (old ++ ", ".data ++ v1)
          else objSet m k1 v1
      | none => objSet m k1 v1).map Prod.fst).Nodup
    cases hget : objGet m k1 with
    | none => exact nodup_keys_objSet m k1 v1 h
    | some old =>
      show ((if old ≠ [] then objSet m k1 (old ++ ", ".data ++ v1)
          else objSet m k1 v1).map Prod.fst).Nodup
      by_cases hold : old = []
      · have hcond : ¬ (old ≠ []) := by simp [hold]
        rw [if_neg hcond]
        exact nodup_keys_objSet m k1 v1 h
      · rw [if_pos hold]
        exact nodup_keys_objSet m k1 _ h

theorem nodup_keys_parseHeaders_aux (lines : List Str) :
    ∀ m : List (Str × Str), (m.map Prod.fst).Nodup →
      ((lines.foldl parseHeaderLine m).map Prod.fst).Nodup := by
  induction lines with
  | nil => intro m h; exact h
  | cons line rest ih =>
    intro m h
    simp only [List.foldl_cons]
    exact ih _ (nodup_keys_parseHeaderLine m line h)

theorem nodup_keys_parseHeaders (block : Str) :
    ((parseHeaders block).map Prod.fst).Nodup :=
  nodup_keys_parseHeaders_aux (splitCRLF block) [] (by simp)

end Curl

namespace Curl

theorem stripQuotes_ct (boundary : Str) :
    stripQuotes (ctMultipartHeader boundary) = ctMultipartHeader boundary := by
  have h1 : ctMultipartHeader boundary =
      'C' :: ("ontent-Type: multipart/form-data; boundary=".data ++ boundary) := rfl
  rw [h1]
  unfold stripQuotes
  rw [if_neg ?hne]
  case hne =>
    intro h
    rw [show ("-H".data : Str) = ['-', 'H'] from rfl] at h
    injection h with hc _
    exact absurd hc (by decide)
  rfl

/-- C1: for a response blob whose final status is outside the 2xx range the
source builds the intended `CurlHttpClientError` — message
`Request failed with status code 404`, attached response with the same status,
headers and classified data — but throws it inside its own `try` block, whose
`catch` swallows it, so `handleResponse` returns normally (with `data` reset to
the raw body) instead of failing. -/
theorem c1_non2xx_resolves_normally :
    handleResponse blob404 cfg0 [] = some (.ok
      { data := JsData.raw "not found".data, status := 404,
        statusText := "Not Found".data,
        headers := [("Content-Type".data, "text/plain".data)],
        config := cfg0, command := [] }) ∧
    tryBody (parseHeaders (headerPartOf blob404)) (bodyOf blob404) 404
        "Not Found".data cfg0 []
      = .error (.curlHttpClientError
          "Request failed with status code 404".data
          { data := JsData.raw "not found".data, status := 404,
            statusText := "Not Found".data,
            headers := [("Content-Type".data, "text/plain".data)],
            config := cfg0, command := [] }) :=
  ⟨rfl, rfl⟩

/-- C4: a 404 response with `Content-Type: application/json` and a syntactically
valid JSON body resolves normally with `data` equal to the raw body string — the
deliberately thrown status error is re-caught and resets the already-parsed JSON
value to the raw text, contradicting the claim that valid JSON yields the parsed
value. -/
theorem c4_valid_json_non2xx_raw :
    jsParse jsonBodyLit = some jsonValLit ∧
    handleResponse blobJson404 cfg0 [] = some (.ok
      { data := JsData.raw jsonBodyLit, status := 404, statusText := "Bad".data,
        headers := [("Content-Type".data, "application/json".data)],
        config := cfg0, command := [] }) ∧
    JsData.raw jsonBodyLit ≠ JsData.json jsonValLit :=
  ⟨rfl, rfl, fun h => JsData.noConfusion h⟩

end Curl

namespace Curl

/-- C3: two response blobs identical except for the letter-casing of the
`Content-Type` header name classify differently — the exactly-cased one yields
parsed JSON, the lowercase one falls back to the raw body (the lookup
`headers['Content-Type']` misses, `isJson` raises a `TypeError` on `undefined`,
and the catch degrades `data`), while the header map stores the original
casing.  This refutes the claimed case-insensitivity of the lookup. -/
theorem c3_casing_changes_classification :
    handleResponse blobJsonOk cfg0 [] = some (.ok
      { data := JsData.json jsonValLit, status := 200, statusText := "OK".data,
        headers := [("Content-Type".data, "application/json".data)],
        config := cfg0, command := [] }) ∧
    handleResponse blobLowerCT cfg0 [] = some (.ok
      { data := JsData.raw jsonBodyLit, status := 200, statusText := "OK".data,
        headers := [("content-type".data, "application/json".data)],
        config := cfg0, command := [] }) ∧
    JsData.json jsonValLit ≠ JsData.raw jsonBodyLit :=
  ⟨rfl, rfl, fun h => JsData.noConfusion h⟩

/-- C3 (amended): the content-type lookup is by the exact property key
`Content-Type`; whenever the header map has no exactly-cased `Content-Type`
entry, the response's data is always the raw body — the body is never
classified as JSON regardless of any differently-cased content-type header. -/
theorem c3_lookup_case_sensitive (s : Str) (config : ConfigM) (command : Str)
    (h100 : (parseStatus (statusLineOf s)).1 ≠ 100)
    (hct : objGet (parseHeaders (headerPartOf s)) ctKey = none) :
    ∃ r, handleResponse s config command = some (.ok r) ∧
      r.data = JsData.raw (bodyOf s) := by
  refine ⟨_, handleResponse_ne100 s config command h100, ?_⟩
  have htb : tryBody (parseHeaders (headerPartOf s)) (bodyOf s)
      (parseStatus (statusLineOf s)).1 (parseStatus (statusLineOf s)).2 config command
      = .error .typeError := by
    unfold tryBody
    rw [hct]
    rfl
  rw [htb]

theorem c3_lookup_case_sensitive_witness :
    ((parseStatus (statusLineOf blobLowerCT)).1 ≠ 100 ∧
      objGet (parseHeaders (headerPartOf blobLowerCT)) ctKey = none) ∧
    (∃ r, handleResponse blobLowerCT cfg0 [] = some (.ok r) ∧
      r.data = JsData.raw (bodyOf blobLowerCT)) :=
  ⟨⟨by decide, rfl⟩, c3_lookup_case_sensitive blobLowerCT cfg0 [] (by decide) rfl⟩

/-- C5: the claimed `", "`-join of all occurrences fails when an earlier
occurrence stored the empty value: on the block `X:` + CRLF + `X: b` the code
stores `b` (the JS truthiness test `if (headers[key])` treats the stored empty
string as absent and overwrites), while the claim demands `, b`. -/
theorem c5_empty_value_not_joined :
    objGet (parseHeaders "X:\r\nX: b".data) "X".data = some "b".data ∧
    headerOccurrences "X:\r\nX: b".data "X".data = [[], "b".data] ∧
    specJoinedValue [[], "b".data] = ", b".data ∧
    ("b".data : Str) ≠ ", b".data := by
  refine ⟨rfl, rfl, rfl, by decide⟩

/-- C5 (amended): `parseHeaders` splits on CRLF, splits each line at its first
colon, trims name and value, ignores colon-free lines, and keeps exactly one
entry per name; the entry's value is the `", "`-join of the occurrences except
that an occurrence arriving when the stored value is the empty string replaces
it instead of being appended (JS truthiness of the stored value). -/
theorem c5_parseHeaders_join_amended (block key : Str) :
    objGet (parseHeaders block) key =
      (if headerOccurrences block key = [] then none
       else some (joinedHeaderValue (headerOccurrences block key))) ∧
    ((parseHeaders block).map Prod.fst).Nodup := by
  constructor
  · unfold parseHeaders headerOccurrences
    rw [objGet_foldl_parseHeaderLine]
    rw [show objGet ([] : List (Str × Str)) key = none from rfl]
    exact foldl_stepJoin_none _
  · exact nodup_keys_parseHeaders block

end Curl

namespace Curl

/-- C2: a POST/PUT whose field mapping contains a byte-source (file-stream)
field is NOT always sent in multipart streaming mode: when the request's
`Content-Type` header contains `application/json`, `sendData` takes the
buffered `-d` path even though a stream field is present — refuting
"regardless of the other fields or headers". -/
theorem c2_json_header_bypasses_multipart :
    SendPlan.isStreamed (sendDataPlan
      { headers := [("Content-Type".data, "application/json".data)],
        data := some (.record [("file1".data, .stream "f.txt".data "hi".data)]),
        url := none, method := none } "BOUNDARY".data) = false ∧
    entriesOf (dataOrEmpty (some (BodyData.record
        [("file1".data, FieldValue.stream "f.txt".data "hi".data)])))
      = [("file1".data, FieldValue.stream "f.txt".data "hi".data)] :=
  ⟨rfl, rfl⟩

/-- C2 (amended): whenever the request's `Content-Type` header does not contain
`application/json`, `sendData` dispatches to the streaming invocation: it
appends the `Content-Type: multipart/form-data; boundary=<token>` header
(surviving the quote-stripping map) and pipes the encoded multipart stream of
the body's fields into the transport process's input. -/
theorem c2_multipart_when_no_json_header (config : ConfigM) (boundary : Str)
    (hct : containsSeq appJson ((objGet config.headers ctKey).getD []) = false) :
    ∃ inv, sendDataPlan config boundary = .streamed inv ∧
      inv.headers = (prepareHeaders config.headers ++
        ["-H".data, ctMultipartHeader boundary]).map stripQuotes ∧
      ctMultipartHeader boundary ∈ inv.headers ∧
      inv.body = encodeMultipart boundary (entriesOf (dataOrEmpty config.data)) := by
  refine ⟨executeCurlWithStreamPlan (prepareHeaders config.headers)
    (dataOrEmpty config.data) boundary, ?_, rfl, ?_, rfl⟩
  · simp [sendDataPlan, hct]
  · show ctMultipartHeader boundary ∈
      (prepareHeaders config.headers ++ ["-H".data, ctMultipartHeader boundary]).map stripQuotes
    have hmem : ctMultipartHeader boundary ∈
        prepareHeaders config.headers ++ ["-H".data, ctMultipartHeader boundary] := by
      simp
    have hmapped := List.mem_map_of_mem stripQuotes hmem
    rw [stripQuotes_ct] at hmapped
    exact hmapped

theorem c2_multipart_when_no_json_header_witness :
    containsSeq appJson ((objGet cfgStream.headers ctKey).getD []) = false ∧
    (∃ inv, sendDataPlan cfgStream "BOUNDARY".data = .streamed inv ∧
      inv.headers = (prepareHeaders cfgStream.headers ++
        ["-H".data, ctMultipartHeader "BOUNDARY".data]).map stripQuotes ∧
      ctMultipartHeader "BOUNDARY".data ∈ inv.headers ∧
      inv.body = encodeMultipart "BOUNDARY".data
        (entriesOf (dataOrEmpty cfgStream.data))) :=
  ⟨rfl, c2_multipart_when_no_json_header cfgStream "BOUNDARY".data rfl⟩

/-- C6: the status-line step of response assembly (stated here for responses
whose own status is not the provisional 100, which claim C7 covers): when the
unanchored regex `HTTP\/\d\.\d (\d{3}) (.*)` finds a match in the first line of
the header block, the response's `status` is the parsed 3-digit code and
`statusText` the (possibly empty) reason capture; with no match, `status` is 0
and `statusText` empty; in both cases header parsing proceeds and the function
returns a response normally. -/
theorem c6_status_line_parsing (s : Str) (config : ConfigM) (command : Str)
    (h100 : (parseStatus (statusLineOf s)).1 ≠ 100) :
    ∃ r, handleResponse s config command = some (.ok r) ∧
      (∀ code reason, findStatusMatch (statusLineOf s) = some (code, reason) →
        r.status = code ∧ r.statusText = reason) ∧
      (findStatusMatch (statusLineOf s) = none → r.status = 0 ∧ r.statusText = []) ∧
      r.headers = parseHeaders (headerPartOf s) := by
  refine ⟨_, handleResponse_ne100 s config command h100, ?_, ?_, rfl⟩
  · intro code reason hm
    constructor
    · show (parseStatus (statusLineOf s)).1 = code
      unfold parseStatus
      rw [hm]
    · show (parseStatus (statusLineOf s)).2 = reason
      unfold parseStatus
      rw [hm]
  · intro hm
    constructor
    · show (parseStatus (statusLineOf s)).1 = 0
      unfold parseStatus
      rw [hm]
    · show (parseStatus (statusLineOf s)).2 = []
      unfold parseStatus
      rw [hm]

theorem c6_status_line_parsing_witness :
    (parseStatus (statusLineOf "a bad status line\r\nX: 1\r\n\r\nbody".data)).1 ≠ 100 ∧
    (∃ r, handleResponse "a bad status line\r\nX: 1\r\n\r\nbody".data cfg0 [] = some (.ok r) ∧
      (∀ code reason, findStatusMatch
          (statusLineOf "a bad status line\r\nX: 1\r\n\r\nbody".data) = some (code, reason) →
        r.status = code ∧ r.statusText = reason) ∧
      (findStatusMatch (statusLineOf "a bad status line\r\nX: 1\r\n\r\nbody".data) = none →
        r.status = 0 ∧ r.statusText = []) ∧
      r.headers = parseHeaders (headerPartOf "a bad status line\r\nX: 1\r\n\r\nbody".data)) :=
  ⟨by decide, c6_status_line_parsing _ cfg0 [] (by decide)⟩

end Curl

namespace Curl

/-- C7: a blob consisting of one or more `100 Continue` header blocks, each
followed by the blank-line boundary, ahead of a final response assembles to
exactly the final response's parsed result — none of the provisional blocks'
status or headers survive. -/
theorem c7_continue_unwrapping (blocks : List Str) (final : Str) (config : ConfigM)
    (command : Str) (_hne : blocks ≠ [])
    (hb : ∀ b ∈ blocks, is100Block b = true) :
    handleResponse (chainBlocks blocks final) config command =
      handleResponse final config command :=
  handleResponse_chain blocks final config command hb

theorem c7_continue_unwrapping_witness :
    ((["HTTP/1.1 100 Continue".data] : List Str) ≠ [] ∧
      (∀ b ∈ (["HTTP/1.1 100 Continue".data] : List Str), is100Block b = true)) ∧
    handleResponse (chainBlocks ["HTTP/1.1 100 Continue".data]
        "HTTP/1.1 200 OK\r\n\r\nhi".data) cfg0 [] =
      handleResponse "HTTP/1.1 200 OK\r\n\r\nhi".data cfg0 [] :=
  ⟨⟨by decide, by decide⟩,
    c7_continue_unwrapping ["HTTP/1.1 100 Continue".data]
      "HTTP/1.1 200 OK\r\n\r\nhi".data cfg0 [] (by decide) (by decide)⟩

/-- C8: the `100 Continue` recursion of `handleResponse` terminates — whenever
the parsed status is 100 the recursive argument (the body after the consumed
header block and blank-line separator) is strictly shorter, so `length + 1`
units of fuel always produce a result. -/
theorem c8_unwrap_terminates (s : Str) (config : ConfigM) (command : Str) :
    ((parseStatus (statusLineOf s)).1 = 100 → (bodyOf s).length < s.length) ∧
    (handleResponseAux (s.length + 1) s config command).isSome = true := by
  constructor
  · intro h
    exact bodyOf_length_lt s (status100_ne_nil s h)
  · exact hra_isSome s config command

theorem c8_unwrap_terminates_witness :
    ((bodyOf "HTTP/1.1 100 Continue\r\n\r\nHTTP/1.1 200 OK\r\n\r\nok".data).length
        < ("HTTP/1.1 100 Continue\r\n\r\nHTTP/1.1 200 OK\r\n\r\nok".data : Str).length) ∧
    (handleResponseAux
        (("HTTP/1.1 100 Continue\r\n\r\nHTTP/1.1 200 OK\r\n\r\nok".data : Str).length + 1)
        "HTTP/1.1 100 Continue\r\n\r\nHTTP/1.1 200 OK\r\n\r\nok".data cfg0 []).isSome = true :=
  ⟨(c8_unwrap_terminates "HTTP/1.1 100 Continue\r\n\r\nHTTP/1.1 200 OK\r\n\r\nok".data
      cfg0 []).1 (by decide),
    (c8_unwrap_terminates "HTTP/1.1 100 Continue\r\n\r\nHTTP/1.1 200 OK\r\n\r\nok".data
      cfg0 []).2⟩

/-- C9: for a field mapping with a single file field the multipart encoder
emits, in order: the boundary line, the `Content-Disposition` part header
carrying the field name and the file's basename, a `Content-Type` line sniffed
from the filename extension (`text/plain` for `.txt`,
`application/octet-stream` for an unmatched extension, case-insensitively),
a blank line, the file's exact bytes, CRLF, and the closing boundary line. -/
theorem c9_single_file_encoding (boundary key path contents : Str) :
    encodeMultipart boundary [(key, FieldValue.stream path contents)] =
      "--".data ++ boundary ++ crlfS ++
      "Content-Disposition: form-data; name=\"".data ++ key ++
        "\"; filename=\"".data ++ basenameL path ++ "\"".data ++ crlfS ++
      "Content-Type: ".data ++ getContentType path ++ crlfS ++ crlfS ++
      contents ++ crlfS ++
      "--".data ++ boundary ++ "--".data ++ crlfS ∧
    getContentType "file1.txt".data = "text/plain".data ∧
    getContentType "file.weird".data = "application/octet-stream".data ∧
    getContentType "file.PNG".data = "image/png".data := by
  refine ⟨?_, rfl, rfl, rfl⟩
  simp [encodeMultipart, encodePart, concatAll, List.append_assoc]

/-- C10: only `fs.ReadStream` values are encoded as byte-source file parts; a
string is emitted verbatim as a scalar part, and any other value — in
particular a Node `Buffer` of raw file bytes — is emitted as a scalar part
whose body is the `JSON.stringify` text (`\x7b"type":"Buffer","data":[..]\x7d`),
not the raw bytes. -/
theorem c10_buffer_not_file_part (boundary key : Str) (bytes : List Nat)
    (s0 path contents : Str) :
    encodePart boundary key (FieldValue.buffer bytes) =
      "--".data ++ boundary ++ crlfS ++
      "Content-Disposition: form-data; name=\"".data ++ key ++ "\"".data ++
        crlfS ++ crlfS ++ bufferJson bytes ++ crlfS ∧
    encodePart boundary key (FieldValue.str s0) =
      "--".data ++ boundary ++ crlfS ++
      "Content-Disposition: form-data; name=\"".data ++ key ++ "\"".data ++
        crlfS ++ crlfS ++ s0 ++ crlfS ∧
    encodePart boundary key (FieldValue.stream path contents) =
      "--".data ++ boundary ++ crlfS ++
      "Content-Disposition: form-data; name=\"".data ++ key ++
        "\"; filename=\"".data ++ basenameL path ++ "\"".data ++ crlfS ++
      "Content-Type: ".data ++ getContentType path ++ crlfS ++ crlfS ++
      contents ++ crlfS ∧
    bufferJson [104, 105] = "\x7b\"type\":\"Buffer\",\"data\":[104,105]\x7d".data ∧
    bufferJson [104, 105] ≠ "hi".data := by
  refine ⟨?_, ?_, ?_, rfl, by decide⟩
  · simp [encodePart, scalarPart, List.append_assoc]
  · simp [encodePart, scalarPart, List.append_assoc]
  · simp [encodePart, List.append_assoc]

end Curl
